import Mathlib

/-!
Verification of `atmdb/core.py`: the `Service` abstract base class
(`url_builder`, `calculate_timeout`), `TokenAuthMixin` (`from_env`) and
`UrlParamMixin` (`url_builder` override).

Python built-ins the source relies on are modelled explicitly:
ordered dictionaries become association lists (`dictLookup`, `setItem`),
`urllib.parse.urlencode`/`quote_plus` become `urlencode`/`quotePlus`,
and `str.format` becomes `formatString` (covering simple `\x7bname\x7d`
fields, doubled-brace escapes, and the error cases).  External effects
are passed in explicitly: `os.getenv` becomes an `env` function argument
and `dateutil.parser.parse` becomes a `dateParse` function argument that
returns `none` where the library would raise.
-/

namespace Atmdb

/-- Lookup in a Python dict modelled as an ordered association list:
the first binding of the key wins (keys are unique in a real dict). -/
def dictLookup : List (String × String) → String → Option String
  | [], _ => none
  | (k, v) :: rest, key => if k = key then some v else dictLookup rest key

/-- Python dict item assignment `m[k] = v`: overwrite in place when the
key is present (keeping its position), append at the end otherwise. -/
def setItem : List (String × String) → String → String → List (String × String)
  | [], k, v => [(k, v)]
  | (k0, v0) :: rest, k, v =>
      if k0 = k then (k0, v) :: rest else (k0, v0) :: setItem rest k v

/-- The key sequence of an ordered mapping. -/
def keysOf (m : List (String × String)) : List String := m.map Prod.fst

/-- Characters `urllib.parse.quote` never escapes (with empty `safe`):
ASCII letters, digits, and `_ . - ~`. -/
def isUrlSafe (c : Char) : Bool :=
  c.isAlphanum || c = '_' || c = '.' || c = '-' || c = '~'

/-- Uppercase hexadecimal digit for `n < 16`. -/
def hexDigitChar (n : Nat) : Char :=
  if n < 10 then Char.ofNat (48 + n) else Char.ofNat (55 + n)

/-- UTF-8 byte sequence of a code point, as `urllib.parse.quote` uses
when percent-encoding non-ASCII characters. -/
def utf8Bytes (n : Nat) : List Nat :=
  if n < 128 then [n]
  else if n < 2048 then [192 + n / 64, 128 + n % 64]
  else if n < 65536 then [224 + n / 4096, 128 + n / 64 % 64, 128 + n % 64]
  else [240 + n / 262144, 128 + n / 4096 % 64, 128 + n / 64 % 64, 128 + n % 64]

/-- Percent-escape of one byte: `%XX` with uppercase hex. -/
def percentByte (b : Nat) : List Char :=
  ['%', hexDigitChar (b / 16 % 16), hexDigitChar (b % 16)]

/-- `urllib.parse.quote_plus` on one character: safe characters pass
through, a space becomes `+`, everything else is percent-encoded. -/
def quoteChar (c : Char) : List Char :=
  if isUrlSafe c then [c]
  else if c = ' ' then ['+']
  else ((utf8Bytes c.toNat).map percentByte).flatten

/-- Model of `urllib.parse.quote_plus` with empty `safe`, as
`urllib.parse.urlencode` applies it to every key and value. -/
def quotePlus (s : String) : String := String.mk ((s.data.map quoteChar).flatten)

/-- Python `sep.join(parts)`. -/
def pyJoin (sep : String) : List String → String
  | [] => ""
  | [x] => x
  | x :: xs => x ++ sep ++ pyJoin sep xs

/-- Model of `urllib.parse.urlencode` on an ordered mapping: each pair
becomes `quote_plus(k) + "=" + quote_plus(v)`, joined with `&`,
preserving insertion order. -/
def urlencode (l : List (String × String)) : String :=
  pyJoin "&" (l.map fun p => quotePlus p.1 ++ "=" ++ quotePlus p.2)

/-- Resolving one `str.format` replacement field against keyword
arguments only: an empty or all-digit field is a positional reference
and fails (no positional arguments are ever passed in this code),
otherwise the field is looked up by name and a missing name is a
`KeyError`. -/
def resolveField (field : String) (m : List (String × String)) : Except String String :=
  if field.data.all Char.isDigit then
    .error "no positional arguments"
  else
    match dictLookup m field with
    | some v => .ok v
    | none => .error ("KeyError: " ++ field)

/-- Scanner state for the `str.format` model: outside any field, inside
a replacement field (accumulating its name, reversed), or just after a
close brace that may be the first half of a doubled escape. -/
inductive FmtMode
  | normal
  | field (acc : List Char)
  | closeBrace
  deriving Repr, DecidableEq

/-- One pass of the `str.format` scanner over the template characters. -/
def fmtAux (m : List (String × String)) : FmtMode → List Char → Except String (List Char)
  | .normal, [] => .ok []
  | .normal, c :: rest =>
      if c = '{' then fmtAux m (.field []) rest
      else if c = '}' then fmtAux m .closeBrace rest
      else (fmtAux m .normal rest).map (fun r => c :: r)
  | .field acc, [] =>
      match acc with
      | _ => .error "unterminated replacement field"
  | .field acc, c :: rest =>
      if acc = [] ∧ c = '{' then (fmtAux m .normal rest).map (fun r => '{' :: r)
      else if c = '}' then
        match resolveField (String.mk acc.reverse) m with
        | .ok v => (fmtAux m .normal rest).map (fun r => v.data ++ r)
        | .error e => .error e
      else fmtAux m (.field (c :: acc)) rest
  | .closeBrace, [] => .error "single close brace in format string"
  | .closeBrace, c :: rest =>
      if c = '}' then (fmtAux m .normal rest).map (fun r => '}' :: r)
      else .error "single close brace in format string"

/-- Model of Python `template.format(**m)` with keyword arguments only:
`\x7b\x7b` and `\x7d\x7d` are literal braces, `\x7bname\x7d` is replaced
by its binding in `m`, and a missing name, positional field, or stray
brace raises. -/
def formatString (s : String) (m : List (String × String)) : Except String String :=
  (fmtAux m .normal s.data).map String.mk

/-- The fields the `str.format` scanner would try to resolve in a
template, in order, mirroring the traversal of `fmtAux`. -/
def phAux : FmtMode → List Char → List String
  | .normal, [] => []
  | .normal, c :: rest =>
      if c = '{' then phAux (.field []) rest
      else if c = '}' then phAux .closeBrace rest
      else phAux .normal rest
  | .field _, [] => []
  | .field acc, c :: rest =>
      if acc = [] ∧ c = '{' then phAux .normal rest
      else if c = '}' then String.mk acc.reverse :: phAux .normal rest
      else phAux (.field (c :: acc)) rest
  | .closeBrace, [] => []
  | .closeBrace, c :: rest =>
      if c = '}' then phAux .normal rest
      else []

/-- Replacement fields referenced by a template string. -/
def placeholders (s : String) : List String := phAux .normal s.data

/-- The per-class configuration of a `Service`: its `ROOT` URL constant.
(`REQUIRED` and `service_name` play no part in the claims.) -/
structure Service where
  ROOT : String

/-- Model of `Service.url_builder`: `root` defaults to `self.ROOT`, the
string `root + endpoint + query` is assembled (the query part is empty
unless `url_params` is a non-empty mapping, in which case it is `?` plus
`urlencode(url_params)`), and the result is formatted with `params or
\x7b\x7d` — so `.ok` is the returned URL and `.error` a raised
formatting exception.  `None` arguments are `none`; `params or \x7b\x7d`
becomes `params.getD []`. -/
def Service.url_builder (svc : Service) (endpoint : String) (root : Option String)
    (params : Option (List (String × String)))
    (url_params : Option (List (String × String))) : Except String String :=
  let r := match root with
    | none => svc.ROOT
    | some r => r
  let query := match url_params with
    | none => ""
    | some l => if l.isEmpty then "" else "?" ++ urlencode l
  formatString (r ++ endpoint ++ query) (params.getD [])

/-- Model of Python `int(s)` on a string: optional surrounding
whitespace, an optional sign, then decimal digits in which single
underscores may separate digit pairs; `none` models a `ValueError`. -/
def digitsTail : List Char → Bool
  | [] => true
  | '_' :: rest =>
      match rest with
      | [] => false
      | c :: rest2 => c.isDigit && digitsTail rest2
  | c :: rest => c.isDigit && digitsTail rest

/-- Digit sequence with optional single underscore separators: at least
one digit, starting and ending with a digit. -/
def pyDigits : List Char → Bool
  | [] => false
  | c :: rest => c.isDigit && digitsTail rest

/-- Numeric value of a digit-and-underscore sequence. -/
def digitsValue (cs : List Char) : Nat :=
  (cs.filter (fun c => c ≠ '_')).foldl (fun a c => a * 10 + (c.toNat - 48)) 0

/-- Strip leading and trailing whitespace, as `int(s)` tolerates. -/
def stripWs (cs : List Char) : List Char :=
  ((cs.dropWhile Char.isWhitespace).reverse.dropWhile Char.isWhitespace).reverse

/-- Model of Python `int(s)` for a base-10 string literal. -/
def pyIntParse (s : String) : Option Int :=
  match stripWs s.data with
  | '+' :: rest => if pyDigits rest then some (digitsValue rest) else none
  | '-' :: rest => if pyDigits rest then some (-(digitsValue rest : Int)) else none
  | rest => if pyDigits rest then some (digitsValue rest) else none

/-- Model of `Service.calculate_timeout`.  `int(http_date)` is
`pyIntParse`; on its `ValueError` the string goes to
`dateutil.parser.parse`, modelled by the `dateParse` argument giving the
parsed date as Unix seconds, `none` where the library would raise — that
exception propagates as `.error`.  `nowUtc` is `datetime.now(utc)` in
Unix seconds, and the returned timeout is the difference in seconds. -/
def Service.calculate_timeout (dateParse : String → Option Int) (nowUtc : Int)
    (http_date : String) : Except String Int :=
  match pyIntParse http_date with
  | some n => .ok n
  | none =>
      match dateParse http_date with
      | none => .error "date parse failure"
      | some date_after => .ok (date_after - nowUtc)

/-- A constructed `TokenAuthMixin` instance: its stored `api_token`. -/
structure TokenAuthInstance where
  api_token : String
  deriving Repr, DecidableEq

/-- Python `repr` of a simple string, as `format(...)` renders `!r`:
the text wrapped in single quotes (no escaping is needed for the
environment-variable names involved). -/
def pyRepr (s : String) : String :=
  String.singleton (Char.ofNat 39) ++ s ++ String.singleton (Char.ofNat 39)

/-- Model of `TokenAuthMixin.from_env`: `os.getenv` is the `env`
argument (`none` for an unset variable).  An unset `TOKEN_ENV_VAR`
raises `ValueError` with a message naming the variable; otherwise the
class is constructed with `api_token` set to the value found. -/
def TokenAuthMixin.from_env (TOKEN_ENV_VAR : String) (env : String → Option String) :
    Except String TokenAuthInstance :=
  match env TOKEN_ENV_VAR with
  | none => .error ("missing environment variable: " ++ pyRepr TOKEN_ENV_VAR)
  | some token => .ok ⟨token⟩

/-- Configuration and state of a `UrlParamMixin`-based service instance:
`ROOT` and `AUTH_PARAM` class constants plus the stored `api_token`. -/
structure UrlParamService where
  ROOT : String
  AUTH_PARAM : String
  api_token : String

/-- Model of `UrlParamMixin.url_builder`: when `url_params` is `None` a
fresh empty ordered mapping is created, then
`url_params[AUTH_PARAM] = api_token` mutates the (possibly
caller-supplied) mapping in place, and `Service.url_builder` runs on the
result with the default root.  The first component is the mapping after
the call — the caller-visible mutation — and the second the built
URL. -/
def UrlParamMixin.url_builder (svc : UrlParamService) (endpoint : String)
    (params : Option (List (String × String)))
    (url_params : Option (List (String × String))) :
    List (String × String) × Except String String :=
  let up := url_params.getD []
  let up2 := setItem up svc.AUTH_PARAM svc.api_token
  (up2, Service.url_builder ⟨svc.ROOT⟩ endpoint none params (some up2))

/-- A character that is not an open or close brace, so `str.format`
copies it verbatim. -/
def charNotBrace (c : Char) : Bool := c != '{' && c != '}'

/-- A string without brace characters: `str.format` is the identity on
such strings. -/
def braceFree (s : String) : Bool := s.data.all charNotBrace

/-- Whether a computation modelling Python code raised an exception. -/
def raisesError {α : Type} : Except String α → Bool
  | .error _ => true
  | .ok _ => false

/-- A template interleaving literal segments with the replacement field
`\x7bname\x7d` between consecutive segments: `n + 1` segments give `n`
occurrences of the field. -/
def templateWith (name : List Char) : List (List Char) → List Char
  | [] => []
  | [s] => s
  | s :: rest => s ++ '{' :: (name ++ '}' :: templateWith name rest)

/-- The same interleaving with the substituted value in place of every
field occurrence. -/
def filledWith (v : List Char) : List (List Char) → List Char
  | [] => []
  | [s] => s
  | s :: rest => s ++ v ++ filledWith v rest

/-- Modelled from the spec: the query string as the spec words it — the
percent-encoded parameters in insertion order, `key=value` pairs
separated by `&`. -/
def querySpec : List (String × String) → String
  | [] => ""
  | [(k, v)] => quotePlus k ++ "=" ++ quotePlus v
  | (k, v) :: rest => quotePlus k ++ "=" ++ quotePlus v ++ "&" ++ querySpec rest

/-- Modelled from the spec: `root` defaults to the class-level `ROOT`
constant when not supplied; the result is the concatenation of `root`,
`endpoint`, and, when `url_params` is non-empty, a `?`-prefixed
percent-encoded query string built from `url_params` in insertion
order; the concatenated string is then substituted as a
`\x7bname\x7d`-style format template using `params`. -/
def url_builder_spec (svc : Service) (endpoint : String) (root : Option String)
    (params : Option (List (String × String)))
    (url_params : Option (List (String × String))) : Except String String :=
  let r := root.getD svc.ROOT
  let concatenated :=
    r ++ endpoint ++
      match url_params with
      | none => ""
      | some [] => ""
      | some l => "?" ++ querySpec l
  formatString concatenated (params.getD [])

/-! Helper lemmas. -/

theorem data_mk (cs : List Char) : (String.mk cs).data = cs := rfl

theorem mk_data_append (a b : String) : String.mk (a.data ++ b.data) = a ++ b := by
  cases a
  cases b
  rfl

theorem except_map_ok {α β : Type} {g : α → β} {x : Except String α} {r : β}
    (h : x.map g = .ok r) : ∃ a, x = .ok a ∧ r = g a := by
  cases x with
  | error e => simp [Except.map] at h
  | ok a =>
      refine ⟨a, rfl, ?_⟩
      simpa [Except.map] using h.symm

theorem urlencode_eq_querySpec : ∀ l, urlencode l = querySpec l
  | [] => rfl
  | [(_, _)] => rfl
  | (k, v) :: (k2, v2) :: rest => by
      have ih := urlencode_eq_querySpec ((k2, v2) :: rest)
      show quotePlus k ++ "=" ++ quotePlus v ++ "&" ++ urlencode ((k2, v2) :: rest) = _
      rw [ih]
      rfl

/-! Claim theorems and their witnesses. -/

/-- C1: `Service.url_builder` agrees with the spec-worded description:
`root` defaults to the class-level `ROOT`, the result concatenates
`root`, `endpoint` and, for non-empty `url_params`, a `?`-prefixed
percent-encoded query string in insertion order, and the concatenated
string is substituted as a `\x7bname\x7d`-template using `params`. -/
theorem url_builder_matches_spec (svc : Service) (endpoint : String)
    (root : Option String) (params url_params : Option (List (String × String))) :
    Service.url_builder svc endpoint root params url_params =
      url_builder_spec svc endpoint root params url_params := by
  cases url_params with
  | none => cases root <;> rfl
  | some l =>
      cases l with
      | nil => cases root <;> rfl
      | cons p rest =>
          cases root <;>
            simp [Service.url_builder, url_builder_spec, urlencode_eq_querySpec,
              List.isEmpty, Option.getD]

theorem dictLookup_setItem_self : ∀ (m : List (String × String)) (k v : String),
    dictLookup (setItem m k v) k = some v
  | [], k, v => by simp [setItem, dictLookup]
  | (k0, v0) :: rest, k, v => by
      by_cases h : k0 = k
      · simp [setItem, h, dictLookup]
      · simp [setItem, h, dictLookup, dictLookup_setItem_self rest k v]

theorem keysOf_cons (a b : String) (m : List (String × String)) :
    keysOf ((a, b) :: m) = a :: keysOf m := rfl

theorem dictLookup_setItem_ne : ∀ (m : List (String × String)) (k v k2 : String),
    k2 ≠ k → dictLookup (setItem m k v) k2 = dictLookup m k2
  | [], k, v, k2, h => by
      have hne : ¬k = k2 := fun hh => h hh.symm
      simp [setItem, dictLookup, hne]
  | (k0, v0) :: rest, k, v, k2, h => by
      by_cases h0 : k0 = k
      · subst h0
        have hne : ¬k0 = k2 := fun hh => h hh.symm
        simp [setItem, dictLookup, hne]
      · by_cases h2 : k0 = k2
        · subst h2
          simp [setItem, h0, dictLookup]
        · simp [setItem, h0, dictLookup, h2, dictLookup_setItem_ne rest k v k2 h]

theorem keysOf_setItem : ∀ (m : List (String × String)) (k v : String),
    keysOf (setItem m k v) = if k ∈ keysOf m then keysOf m else keysOf m ++ [k]
  | [], k, v => by simp [setItem, keysOf]
  | (k0, v0) :: rest, k, v => by
      by_cases h : k0 = k
      · subst h
        simp [setItem, keysOf_cons]
      · have hne : ¬k = k0 := fun hh => h hh.symm
        simp only [setItem, if_neg h, keysOf_cons, keysOf_setItem rest k v]
        by_cases hmem : k ∈ keysOf rest
        · simp [hmem]
        · simp [hmem, hne]

/-- C6: `from_env` raises a `ValueError` naming the missing variable
when the environment variable is unset, and otherwise returns an
instance whose `api_token` is the value of the variable. -/
theorem from_env_contract (TOKEN_ENV_VAR : String) (env : String → Option String) :
    (env TOKEN_ENV_VAR = none →
      TokenAuthMixin.from_env TOKEN_ENV_VAR env =
        .error ("missing environment variable: " ++ pyRepr TOKEN_ENV_VAR))
    ∧ (∀ t, env TOKEN_ENV_VAR = some t →
        TokenAuthMixin.from_env TOKEN_ENV_VAR env = .ok ⟨t⟩) := by
  constructor
  · intro h
    simp [TokenAuthMixin.from_env, h]
  · intro t h
    simp [TokenAuthMixin.from_env, h]

/-- C6 witness: with the variable unset the error names it; with it set
to `tok` the instance stores `tok`. -/
theorem from_env_contract_witness :
    TokenAuthMixin.from_env "TOKEN" (fun _ => none) =
        .error ("missing environment variable: " ++ pyRepr "TOKEN")
    ∧ TokenAuthMixin.from_env "TOKEN" (fun _ => some "tok") = .ok ⟨"tok"⟩ :=
  ⟨(from_env_contract "TOKEN" (fun _ => none)).1 rfl,
   (from_env_contract "TOKEN" (fun _ => some "tok")).2 "tok" rfl⟩

/-- C7: when the string is a valid integer literal, `calculate_timeout`
returns that integer directly, whatever the date parser or clock say. -/
theorem calculate_timeout_int_literal (dateParse : String → Option Int) (nowUtc : Int)
    (s : String) (n : Int) (h : pyIntParse s = some n) :
    Service.calculate_timeout dateParse nowUtc s = .ok n := by
  simp [Service.calculate_timeout, h]

/-- C7 witness: `calculate_timeout("120")` is `120`. -/
theorem calculate_timeout_int_literal_witness :
    Service.calculate_timeout (fun _ => none) 0 "120" = .ok 120 :=
  calculate_timeout_int_literal (fun _ => none) 0 "120" 120 (by decide)

/-- C8: when the string is neither an integer literal nor a parseable
date, `calculate_timeout` raises (the date-parse failure propagates)
and never returns a value. -/
theorem calculate_timeout_unparseable_raises (dateParse : String → Option Int)
    (nowUtc : Int) (s : String)
    (h1 : pyIntParse s = none) (h2 : dateParse s = none) :
    raisesError (Service.calculate_timeout dateParse nowUtc s) = true := by
  simp [Service.calculate_timeout, h1, h2, raisesError]

/-- C8 witness: `"soon"` is neither an integer nor (for this parser) a
date, so the call raises. -/
theorem calculate_timeout_unparseable_raises_witness :
    raisesError (Service.calculate_timeout (fun _ => none) 0 "soon") = true :=
  calculate_timeout_unparseable_raises (fun _ => none) 0 "soon" (by decide) rfl

/-- C10: `from_env` succeeds when the variable is set to the empty
string, storing `api_token = ""`; an error happens only when the
variable is completely unset. -/
theorem from_env_empty_string_ok (TOKEN_ENV_VAR : String) (env : String → Option String) :
    (env TOKEN_ENV_VAR = some "" →
      TokenAuthMixin.from_env TOKEN_ENV_VAR env = .ok ⟨""⟩)
    ∧ (raisesError (TokenAuthMixin.from_env TOKEN_ENV_VAR env) = true →
      env TOKEN_ENV_VAR = none) := by
  constructor
  · intro h
    simp [TokenAuthMixin.from_env, h]
  · intro h
    cases he : env TOKEN_ENV_VAR with
    | none => rfl
    | some t => simp [TokenAuthMixin.from_env, he, raisesError] at h

/-- C10 witness: an empty-string value yields an instance with an empty
token, and an unset variable is the error case. -/
theorem from_env_empty_string_ok_witness :
    TokenAuthMixin.from_env "TOKEN" (fun _ => some "") = .ok ⟨""⟩
    ∧ (fun (_ : String) => (none : Option String)) "TOKEN" = none :=
  ⟨(from_env_empty_string_ok "TOKEN" (fun _ => some "")).1 rfl,
   (from_env_empty_string_ok "TOKEN" (fun _ => none)).2 rfl⟩

theorem charNotBrace_spec {c : Char} (h : charNotBrace c = true) : c ≠ '{' ∧ c ≠ '}' := by
  simpa [charNotBrace] using h

theorem fmtAux_append_notBrace (m : List (String × String)) :
    ∀ (pre cs : List Char), pre.all charNotBrace = true →
      fmtAux m .normal (pre ++ cs) = (fmtAux m .normal cs).map (fun r => pre ++ r)
  | [], cs, _ => by
      simp only [List.nil_append]
      cases h : fmtAux m .normal cs <;> simp [Except.map, h]
  | c :: pre, cs, h => by
      simp only [List.all_cons, Bool.and_eq_true] at h
      obtain ⟨hc, hpre⟩ := h
      obtain ⟨h1, h2⟩ := charNotBrace_spec hc
      have ih := fmtAux_append_notBrace m pre cs hpre
      simp only [List.cons_append, fmtAux, if_neg h1, if_neg h2, List.append_eq]
      rw [ih]
      cases h : fmtAux m .normal cs <;> simp [Except.map, h]

theorem fmtAux_notBrace_ok (m : List (String × String)) (cs : List Char)
    (h : cs.all charNotBrace = true) : fmtAux m .normal cs = .ok cs := by
  have := fmtAux_append_notBrace m cs [] h
  simpa [Except.map, fmtAux] using this

theorem formatString_braceFree : ∀ (s : String) (m : List (String × String)),
    braceFree s = true → formatString s m = .ok s
  | ⟨cs⟩, m, h => by
      unfold formatString
      rw [data_mk, fmtAux_notBrace_ok m cs h]
      rfl

theorem braceFree_append (a b : String) :
    braceFree (a ++ b) = (braceFree a && braceFree b) := by
  simp [braceFree, String.data_append, List.all_append]

/-- C2 counterexample: with `root = "a"` and `endpoint = "\x7bid\x7d"`
and no `params`, `url_builder` does not return `root + endpoint`
unchanged (it raises a `KeyError` for the unfilled placeholder). -/
theorem url_builder_concat_counterexample :
    Service.url_builder ⟨""⟩ "\x7bid\x7d" (some "a") none none ≠
      Except.ok ("a" ++ "\x7bid\x7d") := by
  have h : Service.url_builder ⟨""⟩ "\x7bid\x7d" (some "a") none none =
      Except.error "KeyError: id" := rfl
  rw [h]
  intro hcontra
  exact Except.noConfusion hcontra

/-- C2 (amended): for all `root`, `endpoint` containing no brace
characters, `url_builder` with empty `params`/`url_params` returns
`root ++ endpoint` unchanged. -/
theorem url_builder_braceFree_concat (svc : Service) (root endpoint : String)
    (h1 : braceFree root = true) (h2 : braceFree endpoint = true) :
    Service.url_builder svc endpoint (some root) none none = .ok (root ++ endpoint) := by
  have hbf : braceFree (root ++ endpoint ++ "") = true := by
    simp [braceFree_append, h1, h2]
  have hfmt := formatString_braceFree (root ++ endpoint ++ "") [] hbf
  show formatString (root ++ endpoint ++ "") [] = _
  rw [hfmt, String.append_empty]

/-- C2 witness at a concrete root and endpoint. -/
theorem url_builder_braceFree_concat_witness :
    Service.url_builder ⟨""⟩ "/e" (some "http://r") none none =
      .ok ("http://r" ++ "/e") :=
  url_builder_braceFree_concat ⟨""⟩ "http://r" "/e" (by decide) (by decide)

theorem quoteChar_notBrace (c : Char) : (quoteChar c).all charNotBrace = true := by
  unfold quoteChar
  by_cases hs : isUrlSafe c = true
  · have h1 : c ≠ '{' := by
      rintro rfl
      exact absurd hs (by decide)
    have h2 : c ≠ '}' := by
      rintro rfl
      exact absurd hs (by decide)
    simp [hs, charNotBrace, h1, h2]
  · rw [if_neg hs]
    by_cases hsp : c = ' '
    · simp [hsp]
      decide
    · rw [if_neg hsp]
      simp only [List.all_eq_true]
      intro x hx
      simp only [List.mem_flatten, List.mem_map] at hx
      obtain ⟨l, ⟨b, hb, rfl⟩, hxl⟩ := hx
      have hh : ∀ n, n < 16 → charNotBrace (hexDigitChar n) = true := by decide
      simp only [percentByte, List.mem_cons, List.not_mem_nil, or_false] at hxl
      rcases hxl with rfl | rfl | rfl
      · decide
      · exact hh _ (Nat.mod_lt _ (by decide))
      · exact hh _ (Nat.mod_lt _ (by decide))

theorem quotePlus_braceFree (s : String) : braceFree (quotePlus s) = true := by
  simp only [braceFree, quotePlus, data_mk, List.all_eq_true]
  intro c hc
  simp only [List.mem_flatten, List.mem_map] at hc
  obtain ⟨l, ⟨c0, _, rfl⟩, hcl⟩ := hc
  have h := quoteChar_notBrace c0
  simp only [List.all_eq_true] at h
  exact h c hcl

/-- C5: for a `UrlParamMixin` service, when the caller supplies no
`url_params` (absent or an empty mapping) the built URL ends in a
query string whose first — and only — parameter is `AUTH_PARAM` bound
to the stored `api_token` (brace-free `ROOT` and `endpoint`, so that
template substitution leaves the URL text alone). -/
theorem urlparam_auth_first_param (svc : UrlParamService) (endpoint : String)
    (params : Option (List (String × String)))
    (url_params : Option (List (String × String)))
    (hu : url_params = none ∨ url_params = some [])
    (h1 : braceFree svc.ROOT = true) (h2 : braceFree endpoint = true) :
    (UrlParamMixin.url_builder svc endpoint params url_params).2 =
      .ok (svc.ROOT ++ endpoint ++ "?" ++
        quotePlus svc.AUTH_PARAM ++ "=" ++ quotePlus svc.api_token) := by
  have hup : url_params.getD [] = [] := by
    rcases hu with rfl | rfl <;> rfl
  show Service.url_builder ⟨svc.ROOT⟩ endpoint none params
      (some (setItem (url_params.getD []) svc.AUTH_PARAM svc.api_token)) = _
  rw [hup]
  show formatString
      (svc.ROOT ++ endpoint ++
        ("?" ++ (quotePlus svc.AUTH_PARAM ++ "=" ++ quotePlus svc.api_token)))
      (params.getD []) = _
  have hbf : braceFree
      (svc.ROOT ++ endpoint ++
        ("?" ++ (quotePlus svc.AUTH_PARAM ++ "=" ++ quotePlus svc.api_token))) = true := by
    simp [braceFree_append, h1, h2, quotePlus_braceFree]
    decide
  rw [formatString_braceFree _ _ hbf]
  simp [String.append_assoc]

/-- C5 witness at a concrete service and endpoint. -/
theorem urlparam_auth_first_param_witness :
    (UrlParamMixin.url_builder ⟨"r/", "api_key", "tok"⟩ "e" none none).2 =
      .ok ("r/" ++ "e" ++ "?" ++ quotePlus "api_key" ++ "=" ++ quotePlus "tok") :=
  urlparam_auth_first_param ⟨"r/", "api_key", "tok"⟩ "e" none none (Or.inl rfl)
    (by decide) (by decide)

/-- C9 counterexample: when the caller-supplied mapping already binds
`AUTH_PARAM` to the instance token, the assignment leaves the mapping
observably unchanged — the claim that it always observably changes is
false. -/
theorem urlparam_mapping_unchanged_counterexample :
    (UrlParamMixin.url_builder ⟨"", "k", "t"⟩ "e" none (some [("k", "t")])).1 =
      [("k", "t")] := rfl

/-- C9 (amended): a caller-supplied non-empty `url_params` mapping is
mutated in place by `url_params[AUTH_PARAM] = api_token`: the token is
bound under `AUTH_PARAM`, an existing binding is overwritten at its
original position (key order unchanged), an absent key is appended
last, other keys keep their values — and the mapping observably changes
unless it already bound `AUTH_PARAM` to the token. -/
theorem urlparam_mutates_url_params (svc : UrlParamService) (endpoint : String)
    (params : Option (List (String × String))) (m : List (String × String))
    (_hm : m ≠ []) :
    (UrlParamMixin.url_builder svc endpoint params (some m)).1 =
        setItem m svc.AUTH_PARAM svc.api_token
    ∧ dictLookup (UrlParamMixin.url_builder svc endpoint params (some m)).1
        svc.AUTH_PARAM = some svc.api_token
    ∧ keysOf (UrlParamMixin.url_builder svc endpoint params (some m)).1 =
        (if svc.AUTH_PARAM ∈ keysOf m then keysOf m
         else keysOf m ++ [svc.AUTH_PARAM])
    ∧ (∀ k, k ≠ svc.AUTH_PARAM →
        dictLookup (UrlParamMixin.url_builder svc endpoint params (some m)).1 k =
          dictLookup m k)
    ∧ (dictLookup m svc.AUTH_PARAM ≠ some svc.api_token →
        (UrlParamMixin.url_builder svc endpoint params (some m)).1 ≠ m) := by
  have h0 : (UrlParamMixin.url_builder svc endpoint params (some m)).1 =
      setItem m svc.AUTH_PARAM svc.api_token := rfl
  rw [h0]
  refine ⟨rfl, dictLookup_setItem_self m _ _, keysOf_setItem m _ _, ?_, ?_⟩
  · intro k hk
    exact dictLookup_setItem_ne m _ _ k hk
  · intro hne heq
    apply hne
    rw [← heq]
    exact dictLookup_setItem_self m _ _

/-- C9 witness: with `AUTH_PARAM = "k"` absent from `[("a", "b")]`, the
caller-visible mapping after the call is the in-place assignment
result. -/
theorem urlparam_mutates_url_params_witness :
    (UrlParamMixin.url_builder ⟨"", "k", "t"⟩ "e" none (some [("a", "b")])).1 =
        setItem [("a", "b")] "k" "t"
    ∧ ([("a", "b")] : List (String × String)) ≠ [] :=
  ⟨(urlparam_mutates_url_params ⟨"", "k", "t"⟩ "e" none [("a", "b")]
      (by decide)).1, by decide⟩

theorem fmtAux_field (m : List (String × String)) :
    ∀ (name acc rest : List Char), name.all charNotBrace = true →
      fmtAux m (.field acc) (name ++ '}' :: rest) =
        match resolveField (String.mk (acc.reverse ++ name)) m with
        | .ok v => (fmtAux m .normal rest).map (fun r => v.data ++ r)
        | .error e => .error e
  | [], acc, rest, _ => by
      simp only [List.nil_append, List.append_nil, fmtAux]
      rw [if_neg]
      · simp
      · rintro ⟨-, hh⟩
        exact absurd hh (by decide)
  | c :: name, acc, rest, h => by
      simp only [List.all_cons, Bool.and_eq_true] at h
      obtain ⟨hc, hname⟩ := h
      obtain ⟨h1, h2⟩ := charNotBrace_spec hc
      have ih := fmtAux_field m name (c :: acc) rest hname
      simp only [List.cons_append, fmtAux, List.append_eq]
      rw [if_neg, if_neg h2, ih]
      · simp [List.append_assoc]
      · rintro ⟨-, hh⟩
        exact h1 hh

theorem fmtAux_template (m : List (String × String)) (name : List Char) (v : String)
    (hname : name.all charNotBrace = true)
    (hres : resolveField (String.mk name) m = .ok v) :
    ∀ segs : List (List Char), (∀ s ∈ segs, s.all charNotBrace = true) →
      fmtAux m .normal (templateWith name segs) = .ok (filledWith v.data segs)
  | [], _ => by simp [templateWith, filledWith, fmtAux]
  | [s], hsegs => by
      simp only [templateWith, filledWith]
      exact fmtAux_notBrace_ok m s (hsegs s (by simp))
  | s :: s2 :: rest, hsegs => by
      have hs : s.all charNotBrace = true := hsegs s (by simp)
      have ih := fmtAux_template m name v hname hres (s2 :: rest)
        (fun x hx => hsegs x (by simp [hx]))
      show fmtAux m .normal
          (s ++ '{' :: (name ++ '}' :: templateWith name (s2 :: rest))) = _
      rw [fmtAux_append_notBrace m s _ hs]
      have hopen : fmtAux m .normal ('{' :: (name ++ '}' :: templateWith name (s2 :: rest))) =
          fmtAux m (.field []) (name ++ '}' :: templateWith name (s2 :: rest)) := by
        simp [fmtAux]
      rw [hopen, fmtAux_field m name [] _ hname]
      simp only [List.reverse_nil, List.nil_append, hres]
      rw [ih]
      show Except.ok (s ++ (v.data ++ filledWith v.data (s2 :: rest))) = _
      simp [filledWith, List.append_assoc]

/-- C3: `url_builder` substitutes `params` into the template — every
occurrence of `\x7bname\x7d` between brace-free segments is replaced by
the value bound to `name` — and in particular endpoint
`"/items/\x7bid\x7d"` with `params = [("id", "42")]` builds a URL
ending in `"/items/42"`. -/
theorem url_builder_template_substitution :
    (∀ (m : List (String × String)) (name v : String) (segs : List (List Char)),
      (∀ s ∈ segs, s.all charNotBrace = true) →
      name.data.all charNotBrace = true →
      ¬(name.data.all Char.isDigit = true) →
      dictLookup m name = some v →
      formatString (String.mk (templateWith name.data segs)) m =
        .ok (String.mk (filledWith v.data segs)))
    ∧ (∀ svc : Service, braceFree svc.ROOT = true →
        Service.url_builder svc "/items/\x7bid\x7d" none (some [("id", "42")]) none =
          .ok (svc.ROOT ++ "/items/42")) := by
  constructor
  · intro m name v segs hsegs hname hdig hlook
    have hres : resolveField (String.mk name.data) m = .ok v := by
      cases name
      simp [resolveField, hdig, hlook]
    unfold formatString
    rw [data_mk, fmtAux_template m name.data v hname hres segs hsegs]
    rfl
  · intro svc hroot
    show formatString (svc.ROOT ++ "/items/\x7bid\x7d" ++ "") [("id", "42")] = _
    unfold formatString
    have hdata : (svc.ROOT ++ "/items/\x7bid\x7d" ++ "").data =
        svc.ROOT.data ++ "/items/\x7bid\x7d".data := by
      simp [String.data_append]
    rw [hdata, fmtAux_append_notBrace [("id", "42")] svc.ROOT.data _ hroot]
    have hconc : fmtAux [("id", "42")] .normal "/items/\x7bid\x7d".data =
        .ok "/items/42".data := rfl
    rw [hconc]
    show Except.ok (String.mk (svc.ROOT.data ++ "/items/42".data)) = _
    rw [mk_data_append]

/-- C3 witness: one occurrence between concrete brace-free segments is
substituted, and the concrete endpoint builds the expected URL. -/
theorem url_builder_template_substitution_witness :
    formatString (String.mk (templateWith "id".data ["/items/".data, "".data]))
        [("id", "42")] =
      .ok (String.mk (filledWith "42".data ["/items/".data, "".data]))
    ∧ Service.url_builder ⟨"http://x"⟩ "/items/\x7bid\x7d" none
        (some [("id", "42")]) none = .ok ("http://x" ++ "/items/42") :=
  ⟨url_builder_template_substitution.1 [("id", "42")] "id" "42"
      ["/items/".data, "".data] (by decide) (by decide) (by decide) (by decide),
   url_builder_template_substitution.2 ⟨"http://x"⟩ (by decide)⟩

theorem fmtAux_ok_resolve (m : List (String × String)) :
    ∀ (cs : List Char) (mode : FmtMode) (r : List Char),
      fmtAux m mode cs = .ok r → ∀ f ∈ phAux mode cs, ∃ v, resolveField f m = .ok v := by
  intro cs
  induction cs with
  | nil =>
      intro mode r h f hf
      cases mode with
      | normal => simp [phAux] at hf
      | field acc => simp [fmtAux] at h
      | closeBrace => simp [fmtAux] at h
  | cons c rest ih =>
      intro mode r h f hf
      cases mode with
      | normal =>
          simp only [fmtAux] at h
          simp only [phAux] at hf
          by_cases h1 : c = '{'
          · rw [if_pos h1] at h hf
            exact ih _ _ h f hf
          · rw [if_neg h1] at h hf
            by_cases h2 : c = '}'
            · rw [if_pos h2] at h hf
              exact ih _ _ h f hf
            · rw [if_neg h2] at h hf
              obtain ⟨r0, h0, -⟩ := except_map_ok h
              exact ih _ _ h0 f hf
      | field acc =>
          simp only [fmtAux] at h
          simp only [phAux] at hf
          by_cases h1 : acc = [] ∧ c = '{'
          · rw [if_pos h1] at h hf
            obtain ⟨r0, h0, -⟩ := except_map_ok h
            exact ih _ _ h0 f hf
          · rw [if_neg h1] at h hf
            by_cases h2 : c = '}'
            · rw [if_pos h2] at h hf
              cases hres : resolveField (String.mk acc.reverse) m with
              | error e =>
                  rw [hres] at h
                  simp at h
              | ok v =>
                  rw [hres] at h
                  obtain ⟨r0, h0, -⟩ := except_map_ok h
                  rcases List.mem_cons.mp hf with rfl | hf2
                  · exact ⟨v, hres⟩
                  · exact ih _ _ h0 f hf2
            · rw [if_neg h2] at h hf
              exact ih _ _ h f hf
      | closeBrace =>
          simp only [fmtAux] at h
          simp only [phAux] at hf
          by_cases h2 : c = '}'
          · rw [if_pos h2] at h hf
            obtain ⟨r0, h0, -⟩ := except_map_ok h
            exact ih _ _ h0 f hf
          · rw [if_neg h2] at hf
            simp at hf

theorem phAux_append : ∀ (cs : List Char) (mode : FmtMode) (ys : List Char),
    ∃ t, phAux mode (cs ++ ys) = phAux mode cs ++ t
  | [], mode, ys => ⟨phAux mode ys, by cases mode <;> simp [phAux]⟩
  | c :: rest, mode, ys => by
      cases mode with
      | normal =>
          simp only [List.cons_append, phAux]
          by_cases h1 : c = '{'
          · simp only [if_pos h1]
            exact phAux_append rest (.field []) ys
          · simp only [if_neg h1]
            by_cases h2 : c = '}'
            · simp only [if_pos h2]
              exact phAux_append rest .closeBrace ys
            · simp only [if_neg h2]
              exact phAux_append rest .normal ys
      | field acc =>
          simp only [List.cons_append, phAux]
          by_cases h1 : acc = [] ∧ c = '{'
          · simp only [if_pos h1]
            exact phAux_append rest .normal ys
          · simp only [if_neg h1]
            by_cases h2 : c = '}'
            · simp only [if_pos h2]
              obtain ⟨t, ht⟩ := phAux_append rest .normal ys
              exact ⟨t, by simp only [List.append_eq]; rw [ht]; simp⟩
            · simp only [if_neg h2]
              exact phAux_append rest (.field (c :: acc)) ys
      | closeBrace =>
          simp only [List.cons_append, phAux]
          by_cases h2 : c = '}'
          · simp only [if_pos h2]
            exact phAux_append rest .normal ys
          · simp only [if_neg h2]
            exact ⟨[], by simp⟩

theorem formatString_missing_raises (a q : String) (p : List (String × String))
    (name : String) (hp : name ∈ placeholders a)
    (hmiss : dictLookup p name = none) :
    raisesError (formatString (a ++ q) p) = true := by
  cases hfmt : formatString (a ++ q) p with
  | error e => rfl
  | ok u =>
      exfalso
      unfold formatString at hfmt
      obtain ⟨r0, h0, -⟩ := except_map_ok hfmt
      have hph : name ∈ phAux .normal ((a ++ q).data) := by
        rw [String.data_append]
        obtain ⟨t, ht⟩ := phAux_append a.data .normal q.data
        rw [ht]
        exact List.mem_append_left t hp
      obtain ⟨v, hv⟩ := fmtAux_ok_resolve p _ _ _ h0 name hph
      unfold resolveField at hv
      by_cases hd : name.data.all Char.isDigit = true
      · rw [if_pos hd] at hv
        exact Except.noConfusion hv
      · rw [if_neg hd, hmiss] at hv
        exact Except.noConfusion hv

/-- C4: when the concatenated root/endpoint string references a
placeholder `\x7bname\x7d` with no entry `name` in `params`, the
`url_builder` call raises a key/format error rather than returning a
URL. -/
theorem url_builder_missing_placeholder_raises (svc : Service) (endpoint : String)
    (root : Option String) (params url_params : Option (List (String × String)))
    (name : String)
    (hp : name ∈ placeholders ((root.getD svc.ROOT) ++ endpoint))
    (hmiss : dictLookup (params.getD []) name = none) :
    raisesError (Service.url_builder svc endpoint root params url_params) = true := by
  have key : ∀ (r : String), name ∈ placeholders (r ++ endpoint) →
      raisesError (formatString (r ++ endpoint ++
        (match url_params with
         | none => ""
         | some l => if l.isEmpty then "" else "?" ++ urlencode l))
        (params.getD [])) = true :=
    fun r hr => formatString_missing_raises (r ++ endpoint) _ _ name hr hmiss
  cases root with
  | none => exact key svc.ROOT hp
  | some r => exact key r hp

/-- C4 witness: endpoint `"/x/\x7bid\x7d"` with empty `params`
raises. -/
theorem url_builder_missing_placeholder_raises_witness :
    raisesError (Service.url_builder ⟨""⟩ "/x/\x7bid\x7d" (some "") none none) = true :=
  url_builder_missing_placeholder_raises ⟨""⟩ "/x/\x7bid\x7d" (some "") none none "id"
    (by decide) (by decide)

end Atmdb
